import Mathlib

/-!
Shallow embedding of the chargeback application's dispute-reconciliation,
billing-window and compliance-webhook logic, together with theorems checking
the specification's statements against it.

Conventions of the embedding:
* JavaScript `Date` values are epoch instants, modelled as `Int` (milliseconds);
  date fields that are only stored, never compared, are modelled by their
  source strings.
* `null`/`undefined` are `Option.none`; a JS `x || y` over strings treats the
  empty string as falsy (`truthy` below).
* JS numbers that arise here come only from `parseFloat`; they are modelled
  exactly as `JsNumber` (a rational, or NaN when no numeric prefix parses).
  No arithmetic is ever performed on them, so the rational abstraction of the
  binary double is faithful for the properties stated.
* The Prisma dispute table is a list of rows; `upsert` finds the row with the
  composite key `(shopId, shopifyDisputeId)` and updates it, or appends a
  freshly created row.  Prisma's `@default(now())` / `@updatedAt` column
  defaults are made explicit on the create path.
-/

/-! ## JavaScript primitives -/

/-- JS string truthiness applied to an optional string: `s || null`
(`""`, `null` and `undefined` are falsy). -/
def truthy : Option String → Option String
  | some s => if s = "" then none else some s
  | none => none

/-- JS `s.split("/")` on the character list (the separator is the single
character `/`, so the split never merges separators and keeps empty parts). -/
def splitSlash (cs : List Char) : List (List Char) :=
  match cs with
  | [] => [[]]
  | c :: rest =>
    let r := splitSlash rest
    if c = '/' then [] :: r
    else
      match r with
      | h :: t => (c :: h) :: t
      | [] => [[c]]

/-- JS `s.split("/").pop()`: the segment after the last `/` (the whole string
when there is no `/`, the empty string when `s` ends in `/` or is empty). -/
def lastSeg (s : String) : String :=
  ⟨(splitSlash s.data).getLastD []⟩

/-- JS `s.toLowerCase()` (ASCII case mapping, which is all this code base
compares). -/
def jsToLower (s : String) : String :=
  ⟨s.data.map Char.toLower⟩

/-- A JS number as produced by `parseFloat`: a finite value or `NaN`. -/
inductive JsNumber where
  | nan
  | val (q : Rat)
deriving DecidableEq, Repr

/-- Value of a digit run, most significant first. -/
def digitsToNat (ds : List Char) : Nat :=
  ds.foldl (fun a c => a * 10 + (c.toNat - 48)) 0

/-- Split a character list into its leading digit run and the rest. -/
def takeDigits (cs : List Char) : List Char × List Char :=
  (cs.takeWhile Char.isDigit, cs.dropWhile Char.isDigit)

/-- Optional sign character: the sign and the remaining characters. -/
def parseSign : List Char → Int × List Char
  | '-' :: rest => (-1, rest)
  | '+' :: rest => (1, rest)
  | cs => (1, cs)

/-- A trailing exponent part `e`/`E`, signed digits; `none` when absent or
malformed (JS then ignores it). -/
def parseExp (cs : List Char) : Option Int :=
  match cs with
  | c :: rest =>
    if c = 'e' ∨ c = 'E' then
      let sg := parseSign rest
      let ds := takeDigits sg.2
      if ds.1.isEmpty then none else some (sg.1 * digitsToNat ds.1)
    else none
  | [] => none

/-- JS `parseFloat` on the decimal notation it accepts here: leading
whitespace, optional sign, digits with an optional fraction, an optional
exponent; `none` when no digit is found (NaN).  The result is the pair
`(mantissa, power-of-ten exponent)`.  (`Infinity` literals never occur in
this code base and are not modelled.) -/
def jsParseFloatRepr (s : String) : Option (Int × Int) :=
  let cs := s.data.dropWhile Char.isWhitespace
  let sg := parseSign cs
  let ip := takeDigits sg.2
  let fp : List Char × List Char :=
    match ip.2 with
    | '.' :: rest => takeDigits rest
    | _ => ([], ip.2)
  if ip.1.isEmpty ∧ fp.1.isEmpty then none
  else
    some (sg.1 * (digitsToNat ip.1 * 10 ^ fp.1.length + digitsToNat fp.1),
      (parseExp fp.2).getD 0 - fp.1.length)

/-- The parsed number `m * 10 ^ e` as a rational, NaN when nothing parsed. -/
def jsParseFloat (s : String) : JsNumber :=
  match jsParseFloatRepr s with
  | none => .nan
  | some me =>
    if 0 ≤ me.2 then .val ((me.1 : Rat) * 10 ^ me.2.toNat)
    else .val ((me.1 : Rat) / 10 ^ (-me.2).toNat)

/-- JS `s.includes(pat)`: `pat` occurs as a contiguous substring of `s`. -/
def containsSubstr (s pat : String) : Bool :=
  s.data.tails.any fun suf => pat.data.isPrefixOf suf

/-! ## Billing-window evaluator (`billing.server.ts`) -/

/-- The billing-relevant columns of a `Shop` row (the structural type the two
checks receive). -/
structure ShopBilling where
  trialStartDate : Option Int
  trialEndDate : Option Int
  billingActive : Bool
  subscriptionEndDate : Option Int
deriving DecidableEq, Repr

/-- Code of `isOnTrial`: false when either trial bound is null, otherwise
`now >= trialStart && now <= trialEnd && !billingActive`. -/
def isOnTrial (shop : ShopBilling) (now : Int) : Bool :=
  match shop.trialStartDate, shop.trialEndDate with
  | some trialStart, some trialEnd =>
    decide (trialStart ≤ now) && decide (now ≤ trialEnd) && !shop.billingActive
  | _, _ => false

/-- Code of `hasActiveBilling`: on trial, or the active flag is set and the
subscription end date is null or not yet passed. -/
def hasActiveBilling (shop : ShopBilling) (now : Int) : Bool :=
  if isOnTrial shop now then true
  else if shop.billingActive then
    match shop.subscriptionEndDate with
    | none => true
    | some subEnd => decide (now ≤ subEnd)
  else false

/-- Seven days in milliseconds (`TRIAL_DAYS = 7`). -/
def trialWindowMs : Int := 604800000

/-- C4: `isOnTrial` is true iff both trial bounds are set, the instant lies in
the inclusive window, and billing is not active; with a 7-day window it is
true at exactly the start and the end, false one millisecond outside. -/
theorem isOnTrial_window :
    (∀ (shop : ShopBilling) (now : Int),
      isOnTrial shop now = true ↔
        ∃ ts te, shop.trialStartDate = some ts ∧ shop.trialEndDate = some te ∧
          ts ≤ now ∧ now ≤ te ∧ shop.billingActive = false) ∧
    (∀ t0 : Int,
      isOnTrial ⟨some t0, some (t0 + trialWindowMs), false, none⟩ t0 = true ∧
      isOnTrial ⟨some t0, some (t0 + trialWindowMs), false, none⟩ (t0 + trialWindowMs) = true ∧
      isOnTrial ⟨some t0, some (t0 + trialWindowMs), false, none⟩ (t0 - 1) = false ∧
      isOnTrial ⟨some t0, some (t0 + trialWindowMs), false, none⟩ (t0 + trialWindowMs + 1) = false) := by
  constructor
  · rintro ⟨ts, te, b, se⟩ now
    cases ts <;> cases te <;>
      (simp [isOnTrial, Bool.and_eq_true, decide_eq_true_eq]; try aesop)
  · intro t0
    refine ⟨?_, ?_, ?_, ?_⟩ <;>
      simp [isOnTrial, trialWindowMs, Bool.and_eq_true, decide_eq_true_eq]

/-- C5: `hasActiveBilling` is true iff the shop is on trial, or billing is
active and the subscription end is null or not yet passed; with a null
subscription end and the active flag set it is true at every instant. -/
theorem hasActiveBilling_window :
    (∀ (shop : ShopBilling) (now : Int),
      hasActiveBilling shop now = true ↔
        (isOnTrial shop now = true ∨
          (shop.billingActive = true ∧
            (shop.subscriptionEndDate = none ∨
              ∃ se, shop.subscriptionEndDate = some se ∧ now ≤ se)))) ∧
    (∀ (ts te : Option Int) (now : Int),
      hasActiveBilling ⟨ts, te, true, none⟩ now = true) := by
  constructor
  · intro shop now
    unfold hasActiveBilling
    by_cases h : isOnTrial shop now = true
    · simp [h]
    · rcases shop with ⟨ts, te, b, se⟩
      cases b <;> cases se <;> simp_all [decide_eq_true_eq]
  · intro ts te now
    unfold hasActiveBilling
    by_cases h : isOnTrial ⟨ts, te, true, none⟩ now = true
    · simp [h]
    · simp [h]

/-! ## Raw GraphQL shapes (`disputes.server.ts`) -/

/-- A `MoneyBag`-style amount: decimal string plus currency code. -/
structure Money where
  amount : Option String
  currencyCode : Option String
deriving DecidableEq, Repr

/-- The `order { id name email }` sub-object attached to a dispute. -/
structure OrderRef where
  id : Option String
  name : Option String
  email : Option String
deriving DecidableEq, Repr

/-- The fields a dispute node carries in both queries (the direct
`shopifyPaymentsDisputes` selection and the nested `disputes` selection of the
orders fallback). -/
structure DisputeCore where
  id : Option String
  amount : Option Money
  createdAt : Option String
  evidenceDueBy : Option String
  reason : Option String
  status : Option String
  type : Option String
  inquiry : Option String
deriving DecidableEq, Repr

/-- A dispute node as processed by the upsert loop: the core fields plus the
(possibly attached) parent-order reference.  Direct-query nodes carry their
own `order`; fallback nodes get one attached by the flattening step. -/
structure RawDispute where
  core : DisputeCore
  order : Option OrderRef
deriving DecidableEq, Repr

/-- An order node of the fallback query: id/name/email and nested disputes. -/
structure OrderNode where
  id : Option String
  name : Option String
  email : Option String
  disputes : Option (List DisputeCore)
deriving DecidableEq, Repr

/-- Outcome of `await admin.graphql(q)` followed by `await response.json()`:
either the call threw, or it produced a payload with an optional GraphQL
`errors` member (kept in its JSON-stringified form) and optional data (the
relevant `edges` list, `none` when any link of the optional chain is null). -/
inductive QueryResult (α : Type) where
  | throws (msg : String)
  | result (errors : Option String) (data : Option α)
deriving DecidableEq, Repr

/-- The fallback flattening: for each order, push each nested dispute with the
parent order's id/name/email attached as its `order` member (orders whose
`disputes` is null or empty contribute nothing). -/
def flattenOrders (orders : List OrderNode) : List RawDispute :=
  orders.flatMap fun order =>
    match order.disputes with
    | some ds =>
      ds.map fun d =>
        { core := d, order := some { id := order.id, name := order.name, email := order.email } }
    | none => []

/-- The two-query orchestration of `fetchDisputesFromShopify`: use the direct
query's edges when it returns no `errors`; on an error payload or a thrown
call, run the orders fallback, whose own error payload (or thrown call) fails
the whole operation. -/
def fetchDisputeEdges (direct : QueryResult (List RawDispute))
    (fallback : QueryResult (List OrderNode)) : Except String (List RawDispute) :=
  match direct with
  | .result none edges => .ok (edges.getD [])
  | _ =>
    match fallback with
    | .throws msg => .error msg
    | .result (some errs) _ => .error ("Failed to fetch disputes: " ++ errs)
    | .result none orders => .ok (flattenOrders (orders.getD []))

/-! ## Chargeback raw shapes (`fetchChargebacksFromShopify`) -/

/-- A transaction node of the chargeback orders query. -/
structure Transaction where
  id : Option String
  kind : Option String
  status : Option String
  amount : Option String
  currencyCode : Option String
  createdAt : Option String
  gateway : Option String
  test : Bool
  parentTransaction : Option String
deriving DecidableEq, Repr

/-- An order node of the chargeback orders query. -/
structure ChargebackOrder where
  id : Option String
  name : Option String
  email : Option String
  createdAt : Option String
  transactions : Option (List Transaction)
deriving DecidableEq, Repr

/-- The order summary embedded in a chargeback row's raw payload. -/
structure ChargebackOrderInfo where
  id : Option String
  name : Option String
  email : Option String
  createdAt : Option String
deriving DecidableEq, Repr

/-! ## Stored dispute rows and the upsert loop -/

/-- The opaque JSON stored in `rawPayload`: the dispute node itself, or the
`{transaction, order}` composite built for a chargeback row. -/
inductive RawPayload where
  | disputeNode (d : RawDispute)
  | chargebackNode (t : Transaction) (o : ChargebackOrderInfo)
deriving DecidableEq, Repr

/-- A row of the Prisma `Dispute` table, restricted to the columns this code
reads or writes. -/
structure DisputeRow where
  shopId : Nat
  shopifyDisputeId : String
  orderId : Option String
  orderName : Option String
  customerEmail : Option String
  status : Option String
  reason : Option String
  chargebackReason : Option String
  amount : Option JsNumber
  currency : Option String
  evidenceDueBy : Option String
  rawPayload : RawPayload
  createdAt : Int
  updatedAt : Int
deriving DecidableEq, Repr

/-- JS `dispute.id?.split("/").pop() || dispute.id || `unknown-${Date.now()}``:
the trailing path segment, else the raw id, else a timestamp fallback. -/
def deriveDisputeId (id : Option String) (now : Int) : String :=
  match id with
  | none => "unknown-" ++ toString now
  | some s =>
    if lastSeg s ≠ "" then lastSeg s
    else if s ≠ "" then s
    else "unknown-" ++ toString now

/-- JS `dispute.order?.id?.split("/").pop() || null`. -/
def deriveOrderId (o : Option OrderRef) : Option String :=
  match o with
  | none => none
  | some r =>
    match r.id with
    | none => none
    | some s => truthy (some (lastSeg s))

/-- JS `dispute.amount?.amount ? parseFloat(dispute.amount.amount) : null`: the
parsed number when the amount string is truthy (the parse may yield NaN),
null otherwise. -/
def normalizeAmount (m : Option Money) : Option JsNumber :=
  match m with
  | none => none
  | some mo =>
    match mo.amount with
    | none => none
    | some s => if s = "" then none else some (jsParseFloat s)

/-- JS `dispute.status?.toLowerCase() || null`. -/
def normalizeStatus (st : Option String) : Option String :=
  truthy (st.map jsToLower)

/-- JS `dispute.amount?.currencyCode || null`. -/
def normalizeCurrency (m : Option Money) : Option String :=
  truthy (m.bind Money.currencyCode)

/-- The upsert's `update` object: every mutable column is overwritten from the
incoming node and `updatedAt` is refreshed; `shopId`, `shopifyDisputeId` and
`createdAt` do not appear in it and keep the stored row's values. -/
def updateDisputeRow (r : DisputeRow) (d : RawDispute) (now : Int) : DisputeRow :=
  { r with
    orderId := deriveOrderId d.order
    orderName := truthy (d.order.bind OrderRef.name)
    customerEmail := truthy (d.order.bind OrderRef.email)
    status := normalizeStatus d.core.status
    reason := truthy d.core.reason
    chargebackReason := truthy d.core.type
    amount := normalizeAmount d.core.amount
    currency := normalizeCurrency d.core.amount
    evidenceDueBy := truthy d.core.evidenceDueBy
    rawPayload := .disputeNode d
    updatedAt := now }

/-- The upsert's `create` object (with Prisma's `createdAt`/`updatedAt`
defaults made explicit). -/
def createDisputeRow (shopId : Nat) (did : String) (d : RawDispute) (now : Int) : DisputeRow :=
  { shopId := shopId
    shopifyDisputeId := did
    orderId := deriveOrderId d.order
    orderName := truthy (d.order.bind OrderRef.name)
    customerEmail := truthy (d.order.bind OrderRef.email)
    status := normalizeStatus d.core.status
    reason := truthy d.core.reason
    chargebackReason := truthy d.core.type
    amount := normalizeAmount d.core.amount
    currency := normalizeCurrency d.core.amount
    evidenceDueBy := truthy d.core.evidenceDueBy
    rawPayload := .disputeNode d
    createdAt := now
    updatedAt := now }

/-- Does `r` sit under the composite key `(shopId, did)`? -/
def keyMatches (shopId : Nat) (did : String) (r : DisputeRow) : Bool :=
  decide (r.shopId = shopId) && decide (r.shopifyDisputeId = did)

/-- One `prisma.dispute.upsert` call for one incoming dispute node: the affected row
and the table after the operation. -/
def upsertDispute (store : List DisputeRow) (shopId : Nat) (d : RawDispute) (now : Int) :
    DisputeRow × List DisputeRow :=
  let did := deriveDisputeId d.core.id now
  match store.find? (keyMatches shopId did) with
  | some r =>
    (updateDisputeRow r d now,
     store.map fun x => if keyMatches shopId did x then updateDisputeRow x d now else x)
  | none =>
    (createDisputeRow shopId did d now, store ++ [createDisputeRow shopId did d now])

/-- The per-record loop of `fetchDisputesFromShopify`: upsert each node in
order, collecting the affected rows (`savedDisputes`) and threading the
table. -/
def processDisputes (store : List DisputeRow) (shopId : Nat) (ds : List RawDispute)
    (now : Int) : List DisputeRow × List DisputeRow :=
  match ds with
  | [] => ([], store)
  | d :: rest =>
    let p := upsertDispute store shopId d now
    let q := processDisputes p.2 shopId rest now
    (p.1 :: q.1, q.2)

/-- The table after one reconciliation pass. -/
def syncStore (store : List DisputeRow) (shopId : Nat) (ds : List RawDispute)
    (now : Int) : List DisputeRow :=
  (processDisputes store shopId ds now).2

/-- Code of `fetchDisputesFromShopify` as a function of the two query outcomes and the
table: the saved-row list and the new table, or the propagated error. -/
def fetchDisputesFromShopify (direct : QueryResult (List RawDispute))
    (fallback : QueryResult (List OrderNode)) (store : List DisputeRow)
    (shopId : Nat) (now : Int) : Except String (List DisputeRow × List DisputeRow) :=
  (fetchDisputeEdges direct fallback).map fun ds => processDisputes store shopId ds now

/-- Code of `syncDisputes`: the whole fetch in a try/catch that logs and substitutes
an empty result list (leaving the table as the failed call left it; in this
model failures happen before any upsert, so the table is unchanged). -/
def syncDisputes (direct : QueryResult (List RawDispute))
    (fallback : QueryResult (List OrderNode)) (store : List DisputeRow)
    (shopId : Nat) (now : Int) : List DisputeRow × List DisputeRow :=
  match fetchDisputesFromShopify direct fallback store shopId now with
  | .ok r => r
  | .error _ => ([], store)

/-! ## Chargeback extraction (`fetchChargebacksFromShopify`) -/

/-- The kind test of the chargeback loop:
`transaction.kind === "CHARGEBACK" || transaction.kind === "chargeback"`. -/
def isChargebackKind (t : Transaction) : Bool :=
  decide (t.kind = some "CHARGEBACK") || decide (t.kind = some "chargeback")

/-- The template ``chargeback-${transaction.id?.split("/").pop() || transaction.id}``: the
`chargeback-` prefix on the trailing path segment (falling back to the raw id,
and to the template rendering of `undefined` for a missing id). -/
def chargebackDisputeId (tid : Option String) : String :=
  "chargeback-" ++
    match tid with
    | none => "undefined"
    | some s => if lastSeg s ≠ "" then lastSeg s else s

/-- The `chargebackData` object synthesized for one matching transaction. -/
structure ChargebackData where
  shopifyDisputeId : String
  orderId : Option String
  orderName : Option String
  customerEmail : Option String
  status : String
  reason : String
  chargebackReason : Option String
  amount : Option JsNumber
  currency : Option String
  evidenceDueBy : Option String
  rawPayload : RawPayload
deriving DecidableEq, Repr

/-- Build `chargebackData` from a matching transaction and its parent order,
mirroring the object literal field by field (`status` defaults to `"open"`,
`reason` is the literal `"chargeback"`, `chargebackReason` is the raw kind,
`evidenceDueBy` is always null). -/
def mkChargebackData (o : ChargebackOrder) (t : Transaction) : ChargebackData :=
  { shopifyDisputeId := chargebackDisputeId t.id
    orderId :=
      match o.id with
      | none => none
      | some s => truthy (some (lastSeg s))
    orderName := truthy o.name
    customerEmail := truthy o.email
    status :=
      match t.status with
      | none => "open"
      | some s => if jsToLower s = "" then "open" else jsToLower s
    reason := "chargeback"
    chargebackReason := t.kind
    amount :=
      match t.amount with
      | none => none
      | some s => if s = "" then none else some (jsParseFloat s)
    currency := truthy t.currencyCode
    evidenceDueBy := none
    rawPayload := .chargebackNode t ⟨o.id, o.name, o.email, o.createdAt⟩ }

/-- The record-synthesis stage of `fetchChargebacksFromShopify`: walk every
order's transactions (`order.transactions || []`) and produce one
`chargebackData` per transaction passing the kind test. -/
def chargebackRecords (orders : List ChargebackOrder) : List ChargebackData :=
  orders.flatMap fun o =>
    (o.transactions.getD []).filterMap fun t =>
      if isChargebackKind t then some (mkChargebackData o t) else none

/-! ## Compliance webhook actions (`webhooks.compliance` / `webhooks.shop.redact`) -/

/-- A JS thrown value: an `Error` carrying its message, or any other value
(for which `error instanceof Error` is false). -/
inductive Thrown where
  | err (msg : String)
  | nonError
deriving DecidableEq, Repr

/-- The catch clause of the combined compliance action: 401 when the thrown
value is an `Error` whose message contains `"HMAC"` or `"Unauthorized"`,
otherwise 200 (acknowledge anyway). -/
def complianceCatch (t : Thrown) : Nat :=
  match t with
  | .err m => if containsSubstr m "HMAC" || containsSubstr m "Unauthorized" then 401 else 200
  | .nonError => 200

/-- The catch clause of the shop-redact action: it checks only `"HMAC"`. -/
def shopRedactCatch (t : Thrown) : Nat :=
  match t with
  | .err m => if containsSubstr m "HMAC" then 401 else 200
  | .nonError => 200

/-- The combined compliance webhook action, as a function of the
authentication outcome (`authenticate.webhook` throwing or yielding a topic),
whether the shop lookup finds a row, and the first storage throw during the
handled branch, if any.  A recognized topic's branch either early-returns 200
(shop missing), throws into the catch clause, or falls through to the final
200; an unrecognized topic skips every branch and returns the final 200. -/
def complianceAction (auth : Except Thrown String) (shopFound : Bool)
    (dbFailure : Option Thrown) : Nat :=
  match auth with
  | .error t => complianceCatch t
  | .ok topic =>
    if topic = "CUSTOMERS_DATA_REQUEST" ∨ topic = "customers/data_request"
        ∨ topic = "CUSTOMERS_REDACT" ∨ topic = "customers/redact"
        ∨ topic = "SHOP_REDACT" ∨ topic = "shop/redact" then
      match dbFailure with
      | some t => complianceCatch t
      | none => if shopFound then 200 else 200
    else 200

/-- The dedicated shop-redact webhook action, same shape with its own catch
clause and a single recognized topic pair. -/
def shopRedactAction (auth : Except Thrown String) (shopFound : Bool)
    (dbFailure : Option Thrown) : Nat :=
  match auth with
  | .error t => shopRedactCatch t
  | .ok topic =>
    if topic = "SHOP_REDACT" ∨ topic = "shop/redact" then
      match dbFailure with
      | some t => shopRedactCatch t
      | none => if shopFound then 200 else 200
    else 200

/-! ## Store lemmas -/

/-- The composite keys of a table, in row order. -/
def storeKeys (store : List DisputeRow) : List (Nat × String) :=
  store.map fun r => (r.shopId, r.shopifyDisputeId)

/-- A raw dispute carrying a truthy remote id (the timestamp fallback of the
key derivation is never reached). -/
def hasStableId (d : RawDispute) : Prop :=
  ∃ s, d.core.id = some s ∧ s ≠ ""

theorem deriveDisputeId_stable {d : RawDispute} (h : hasStableId d) (t1 t2 : Int) :
    deriveDisputeId d.core.id t1 = deriveDisputeId d.core.id t2 := by
  obtain ⟨s, hs, hne⟩ := h
  simp [deriveDisputeId, hs, hne]

theorem keyMatches_iff {shopId : Nat} {did : String} {r : DisputeRow} :
    keyMatches shopId did r = true ↔ r.shopId = shopId ∧ r.shopifyDisputeId = did := by
  simp [keyMatches]

theorem keyMatches_updateDisputeRow {shopId : Nat} {did : String} (r : DisputeRow)
    (d : RawDispute) (now : Int) :
    keyMatches shopId did (updateDisputeRow r d now) = keyMatches shopId did r := rfl

theorem mem_storeKeys {store : List DisputeRow} {k : Nat × String} :
    k ∈ storeKeys store ↔ ∃ r ∈ store, keyMatches k.1 k.2 r = true := by
  simp only [storeKeys, List.mem_map, keyMatches_iff]
  constructor
  · rintro ⟨r, hr, rfl⟩
    exact ⟨r, hr, rfl, rfl⟩
  · rintro ⟨r, hr, h1, h2⟩
    exact ⟨r, hr, by rw [h1, h2]⟩

/-- C3: on the update path (a row with the composite key already stored), the
upsert keeps the table's length, rewrites from the incoming node exactly the
mutable columns — order reference (id, name, attached customer email), status,
reason, chargeback-type label, amount, currency, evidence-due field, raw
payload — refreshes `updatedAt`, leaves `shopId`, `shopifyDisputeId` and
`createdAt` of the stored row unchanged, and keeps every row under a
different key. -/
theorem upsert_update_frame (store : List DisputeRow) (shopId : Nat) (d : RawDispute)
    (now : Int) (r : DisputeRow) (hr : r ∈ store)
    (hk : keyMatches shopId (deriveDisputeId d.core.id now) r = true) :
    (upsertDispute store shopId d now).2.length = store.length ∧
    updateDisputeRow r d now ∈ (upsertDispute store shopId d now).2 ∧
    (updateDisputeRow r d now).shopId = r.shopId ∧
    (updateDisputeRow r d now).shopifyDisputeId = r.shopifyDisputeId ∧
    (updateDisputeRow r d now).createdAt = r.createdAt ∧
    (updateDisputeRow r d now).updatedAt = now ∧
    (updateDisputeRow r d now).orderId = deriveOrderId d.order ∧
    (updateDisputeRow r d now).orderName = truthy (d.order.bind OrderRef.name) ∧
    (updateDisputeRow r d now).customerEmail = truthy (d.order.bind OrderRef.email) ∧
    (updateDisputeRow r d now).status = normalizeStatus d.core.status ∧
    (updateDisputeRow r d now).reason = truthy d.core.reason ∧
    (updateDisputeRow r d now).chargebackReason = truthy d.core.type ∧
    (updateDisputeRow r d now).amount = normalizeAmount d.core.amount ∧
    (updateDisputeRow r d now).currency = normalizeCurrency d.core.amount ∧
    (updateDisputeRow r d now).evidenceDueBy = truthy d.core.evidenceDueBy ∧
    (updateDisputeRow r d now).rawPayload = RawPayload.disputeNode d ∧
    ∀ x ∈ store, keyMatches shopId (deriveDisputeId d.core.id now) x = false →
      x ∈ (upsertDispute store shopId d now).2 := by
  have hfound : (store.find? (keyMatches shopId (deriveDisputeId d.core.id now))).isSome :=
    List.find?_isSome.mpr ⟨r, hr, hk⟩
  obtain ⟨r0, hr0⟩ := Option.isSome_iff_exists.mp hfound
  refine ⟨?_, ?_, rfl, rfl, rfl, rfl, rfl, rfl, rfl, rfl, rfl, rfl, rfl, rfl, rfl, rfl, ?_⟩
  · simp [upsertDispute, hr0]
  · simp only [upsertDispute, hr0]
    exact List.mem_map.mpr ⟨r, hr, by rw [hk]; simp⟩
  · intro x hx hxk
    simp only [upsertDispute, hr0]
    exact List.mem_map.mpr ⟨x, hx, by rw [hxk]; simp⟩

/-- An already-stored row used to instantiate the update-path theorem. -/
def rowW : DisputeRow :=
  { shopId := 1
    shopifyDisputeId := "123456"
    orderId := none
    orderName := none
    customerEmail := none
    status := some "open"
    reason := none
    chargebackReason := none
    amount := none
    currency := none
    evidenceDueBy := none
    rawPayload := .disputeNode ⟨⟨none, none, none, none, none, none, none, none⟩, none⟩
    createdAt := 3
    updatedAt := 3 }

/-- An incoming dispute node whose derived id hits `rowW`'s key. -/
def dW : RawDispute :=
  { core :=
      { id := some "gid://shopify/ShopifyPaymentsDispute/123456"
        amount := some ⟨some "49.99", some "USD"⟩
        createdAt := none
        evidenceDueBy := some "2024-01-31T00:00:00Z"
        reason := some "fraudulent"
        status := some "UNDER_REVIEW"
        type := some "CHARGEBACK"
        inquiry := none }
    order := some ⟨some "gid://shopify/Order/77", some "#1001", some "x@y.z"⟩ }

theorem upsert_update_frame_witness :
    (updateDisputeRow rowW dW 9).createdAt = rowW.createdAt ∧
    (updateDisputeRow rowW dW 9).updatedAt = 9 ∧
    (updateDisputeRow rowW dW 9).shopifyDisputeId = rowW.shopifyDisputeId :=
  ⟨(upsert_update_frame [rowW] 1 dW 9 rowW (List.mem_singleton.mpr rfl) (by decide)).2.2.2.2.1,
   (upsert_update_frame [rowW] 1 dW 9 rowW (List.mem_singleton.mpr rfl) (by decide)).2.2.2.2.2.1,
   (upsert_update_frame [rowW] 1 dW 9 rowW (List.mem_singleton.mpr rfl) (by decide)).2.2.2.1⟩

theorem storeKeys_upsert_found {store : List DisputeRow} {shopId : Nat} {d : RawDispute}
    {now : Int} {r0 : DisputeRow}
    (h : store.find? (keyMatches shopId (deriveDisputeId d.core.id now)) = some r0) :
    storeKeys (upsertDispute store shopId d now).2 = storeKeys store := by
  simp only [upsertDispute, h, storeKeys, List.map_map]
  refine List.map_congr_left fun x hx => ?_
  by_cases hxk : keyMatches shopId (deriveDisputeId d.core.id now) x = true
  · simp [Function.comp, hxk, keyMatches_updateDisputeRow, updateDisputeRow]
  · simp only [Bool.not_eq_true] at hxk
    simp [Function.comp, hxk]

theorem storeKeys_upsert_notFound {store : List DisputeRow} {shopId : Nat} {d : RawDispute}
    {now : Int}
    (h : store.find? (keyMatches shopId (deriveDisputeId d.core.id now)) = none) :
    storeKeys (upsertDispute store shopId d now).2 =
      storeKeys store ++ [(shopId, deriveDisputeId d.core.id now)] := by
  simp [upsertDispute, h, storeKeys, createDisputeRow]

theorem storeKeys_syncStore_mono {store : List DisputeRow} {shopId : Nat}
    {ds : List RawDispute} {now : Int} {k : Nat × String} (hk : k ∈ storeKeys store) :
    k ∈ storeKeys (syncStore store shopId ds now) := by
  induction ds generalizing store with
  | nil => simpa [syncStore, processDisputes] using hk
  | cons d rest ih =>
    show k ∈ storeKeys (processDisputes _ _ _ _).2
    simp only [processDisputes]
    refine ih ?_
    rcases h : store.find? (keyMatches shopId (deriveDisputeId d.core.id now)) with _ | r0
    · rw [storeKeys_upsert_notFound h]
      exact List.mem_append_left _ hk
    · rw [storeKeys_upsert_found h]
      exact hk

theorem derived_key_mem_upsert (store : List DisputeRow) (shopId : Nat) (d : RawDispute)
    (now : Int) :
    (shopId, deriveDisputeId d.core.id now) ∈ storeKeys (upsertDispute store shopId d now).2 := by
  rcases h : store.find? (keyMatches shopId (deriveDisputeId d.core.id now)) with _ | r0
  · rw [storeKeys_upsert_notFound h]
    exact List.mem_append_right _ (List.mem_singleton.mpr rfl)
  · rw [storeKeys_upsert_found h]
    have hp := List.find?_some h
    have hm := List.mem_of_find?_eq_some h
    exact mem_storeKeys.mpr ⟨r0, hm, hp⟩

theorem derived_key_mem_syncStore {store : List DisputeRow} {shopId : Nat}
    {ds : List RawDispute} {now : Int} {d : RawDispute} (hd : d ∈ ds) :
    (shopId, deriveDisputeId d.core.id now) ∈ storeKeys (syncStore store shopId ds now) := by
  induction ds generalizing store with
  | nil => cases hd
  | cons d0 rest ih =>
    show _ ∈ storeKeys (processDisputes _ _ _ _).2
    simp only [processDisputes]
    rcases List.mem_cons.mp hd with rfl | hd0
    · exact storeKeys_syncStore_mono (derived_key_mem_upsert store shopId d now)
    · exact ih hd0

theorem storeKeys_syncStore_of_present {store : List DisputeRow} {shopId : Nat}
    {ds : List RawDispute} {now : Int}
    (h : ∀ d ∈ ds, (shopId, deriveDisputeId d.core.id now) ∈ storeKeys store) :
    storeKeys (syncStore store shopId ds now) = storeKeys store := by
  induction ds generalizing store with
  | nil => simp [syncStore, processDisputes]
  | cons d rest ih =>
    show storeKeys (processDisputes _ _ _ _).2 = _
    simp only [processDisputes]
    have hd := h d (List.mem_cons_self d rest)
    obtain ⟨r, hr, hrk⟩ := mem_storeKeys.mp hd
    have hfound : (store.find? (keyMatches shopId (deriveDisputeId d.core.id now))).isSome :=
      List.find?_isSome.mpr ⟨r, hr, hrk⟩
    obtain ⟨r0, hr0⟩ := Option.isSome_iff_exists.mp hfound
    have hkeys := storeKeys_upsert_found hr0
    have : storeKeys (syncStore (upsertDispute store shopId d now).2 shopId rest now) =
        storeKeys (upsertDispute store shopId d now).2 := by
      refine ih fun d2 hd2 => ?_
      rw [hkeys]
      exact h d2 (List.mem_cons_of_mem _ hd2)
    calc storeKeys (processDisputes (upsertDispute store shopId d now).2 shopId rest now).2
        = storeKeys (upsertDispute store shopId d now).2 := this
      _ = storeKeys store := hkeys

theorem nodup_storeKeys_upsert {store : List DisputeRow} {shopId : Nat} {d : RawDispute}
    {now : Int} (h : (storeKeys store).Nodup) :
    (storeKeys (upsertDispute store shopId d now).2).Nodup := by
  rcases hf : store.find? (keyMatches shopId (deriveDisputeId d.core.id now)) with _ | r0
  · rw [storeKeys_upsert_notFound hf]
    have hnot : (shopId, deriveDisputeId d.core.id now) ∉ storeKeys store := by
      intro hmem
      obtain ⟨r, hr, hrk⟩ := mem_storeKeys.mp hmem
      have := List.find?_eq_none.mp hf r hr
      simp [hrk] at this
    simp [List.nodup_append, h, hnot]
  · rw [storeKeys_upsert_found hf]
    exact h

theorem nodup_storeKeys_syncStore {store : List DisputeRow} {shopId : Nat}
    {ds : List RawDispute} {now : Int} (h : (storeKeys store).Nodup) :
    (storeKeys (syncStore store shopId ds now)).Nodup := by
  induction ds generalizing store with
  | nil => simpa [syncStore, processDisputes] using h
  | cons d rest ih =>
    show (storeKeys (processDisputes _ _ _ _).2).Nodup
    simp only [processDisputes]
    exact ih (nodup_storeKeys_upsert h)

theorem countP_keyMatches (store : List DisputeRow) (shopId : Nat) (did : String) :
    store.countP (keyMatches shopId did) =
      (storeKeys store).countP (fun x => decide (x = (shopId, did))) := by
  induction store with
  | nil => simp [storeKeys]
  | cons r rest ih =>
    by_cases hk : keyMatches shopId did r = true
    · obtain ⟨h1, h2⟩ := keyMatches_iff.mp hk
      simp [List.countP_cons, storeKeys, hk, h1, h2, storeKeys] at ih ⊢
      omega
    · have hne : ¬ ((r.shopId, r.shopifyDisputeId) = (shopId, did)) := by
        intro he
        exact hk (keyMatches_iff.mpr ⟨congrArg Prod.fst he, congrArg Prod.snd he⟩)
      simp only [Bool.not_eq_true] at hk
      simp [List.countP_cons, storeKeys, hk, hne] at ih ⊢
      exact ih

theorem countP_eq_one_of_nodup_mem {l : List (Nat × String)} {k : Nat × String}
    (hnd : l.Nodup) (hm : k ∈ l) : l.countP (fun x => decide (x = k)) = 1 := by
  induction l with
  | nil => cases hm
  | cons a rest ih =>
    rcases List.mem_cons.mp hm with rfl | hmr
    · have hnot : k ∉ rest := (List.nodup_cons.mp hnd).1
      have hz : rest.countP (fun x => decide (x = k)) = 0 :=
        List.countP_eq_zero.mpr fun b hb => by
          simp only [decide_eq_true_eq]
          intro he
          exact hnot (he ▸ hb)
      simp [List.countP_cons, hz]
    · have ha : a ≠ k := by
        intro he
        exact (List.nodup_cons.mp hnd).1 (he ▸ hmr)
      simp [List.countP_cons, ha, ih (List.nodup_cons.mp hnd).2 hmr]

theorem updatedAt_upsert_same_key {store : List DisputeRow} {shopId : Nat} {d : RawDispute}
    {now : Int} :
    ∀ r ∈ (upsertDispute store shopId d now).2,
      keyMatches shopId (deriveDisputeId d.core.id now) r = true → r.updatedAt = now := by
  intro r hr hrk
  rcases hf : store.find? (keyMatches shopId (deriveDisputeId d.core.id now)) with _ | r0
  · simp only [upsertDispute, hf] at hr
    rcases List.mem_append.mp hr with hr1 | hr2
    · have := List.find?_eq_none.mp hf r hr1
      simp [hrk] at this
    · rw [List.mem_singleton.mp hr2]
      rfl
  · simp only [upsertDispute, hf] at hr
    obtain ⟨x, hx, hfx⟩ := List.mem_map.mp hr
    by_cases hxk : keyMatches shopId (deriveDisputeId d.core.id now) x = true
    · rw [hxk] at hfx
      simp only [if_true] at hfx
      rw [← hfx]
      rfl
    · simp only [Bool.not_eq_true] at hxk
      rw [hxk] at hfx
      simp only [Bool.false_eq_true, if_false] at hfx
      rw [← hfx] at hrk
      rw [hrk] at hxk
      cases hxk

theorem mem_upsert_untouched {store : List DisputeRow} {shopId : Nat} {d : RawDispute}
    {now : Int} {a : Nat} {b : String}
    (hne : (a, b) ≠ (shopId, deriveDisputeId d.core.id now)) :
    ∀ r ∈ (upsertDispute store shopId d now).2, keyMatches a b r = true → r ∈ store := by
  intro r hr hrk
  rcases hf : store.find? (keyMatches shopId (deriveDisputeId d.core.id now)) with _ | r0
  · simp only [upsertDispute, hf] at hr
    rcases List.mem_append.mp hr with hr1 | hr2
    · exact hr1
    · exfalso
      rw [List.mem_singleton.mp hr2] at hrk
      obtain ⟨h1, h2⟩ := keyMatches_iff.mp hrk
      exact hne (by rw [← h1, ← h2]; rfl)
  · simp only [upsertDispute, hf] at hr
    obtain ⟨x, hx, hfx⟩ := List.mem_map.mp hr
    by_cases hxk : keyMatches shopId (deriveDisputeId d.core.id now) x = true
    · exfalso
      rw [hxk] at hfx
      simp only [if_true] at hfx
      rw [← hfx] at hrk
      rw [keyMatches_updateDisputeRow] at hrk
      obtain ⟨h1, h2⟩ := keyMatches_iff.mp hrk
      obtain ⟨h3, h4⟩ := keyMatches_iff.mp hxk
      exact hne (by rw [← h1, ← h2, h3, h4])
    · simp only [Bool.not_eq_true] at hxk
      rw [hxk] at hfx
      simp only [Bool.false_eq_true, if_false] at hfx
      rw [← hfx]
      exact hx

theorem mem_sync_untouched {store : List DisputeRow} {shopId : Nat} {ds : List RawDispute}
    {now : Int} {a : Nat} {b : String}
    (hne : ∀ d ∈ ds, (a, b) ≠ (shopId, deriveDisputeId d.core.id now)) :
    ∀ r ∈ syncStore store shopId ds now, keyMatches a b r = true → r ∈ store := by
  induction ds generalizing store with
  | nil =>
    intro r hr _
    simpa [syncStore, processDisputes] using hr
  | cons d rest ih =>
    intro r hr hrk
    have hr2 : r ∈ syncStore (upsertDispute store shopId d now).2 shopId rest now := hr
    have hmem := ih (fun d2 hd2 => hne d2 (List.mem_cons_of_mem _ hd2)) r hr2 hrk
    exact mem_upsert_untouched (hne d (List.mem_cons_self d rest)) r hmem hrk

theorem sync_updatedAt {store : List DisputeRow} {shopId : Nat} {ds : List RawDispute}
    {now : Int} {d : RawDispute} (hd : d ∈ ds) :
    ∀ r ∈ syncStore store shopId ds now,
      keyMatches shopId (deriveDisputeId d.core.id now) r = true → r.updatedAt = now := by
  induction ds generalizing store d with
  | nil => cases hd
  | cons d0 rest ih =>
    intro r hr hrk
    rcases List.mem_cons.mp hd with rfl | hdr
    · by_cases hdup : ∃ d2 ∈ rest, deriveDisputeId d2.core.id now = deriveDisputeId d.core.id now
      · obtain ⟨d2, hd2, he⟩ := hdup
        exact ih hd2 r hr (by rw [he]; exact hrk)
      · push_neg at hdup
        have huntouched : ∀ d2 ∈ rest,
            (shopId, deriveDisputeId d.core.id now) ≠
              (shopId, deriveDisputeId d2.core.id now) := by
          intro d2 hd2 he
          exact hdup d2 hd2 (by injection he with h1 h2; rw [h2])
        have hr0 : r ∈ (upsertDispute store shopId d now).2 :=
          mem_sync_untouched huntouched r hr hrk
        exact updatedAt_upsert_same_key r hr0 hrk
    · exact ih hdr r hr hrk

/-- C2 (amended): for a snapshot whose records all carry a truthy remote id,
reconciling twice over a table with unique composite keys leaves the row count
of the second pass equal to the first pass's, keeps the keys unique, stores
exactly one row per derived remote id, and stamps each such row's `updatedAt`
with the second pass's clock. -/
theorem sync_idempotent (store : List DisputeRow) (shopId : Nat) (ds : List RawDispute)
    (t1 t2 : Int) (hUC : (storeKeys store).Nodup) (hId : ∀ d ∈ ds, hasStableId d) :
    (syncStore (syncStore store shopId ds t1) shopId ds t2).length
        = (syncStore store shopId ds t1).length ∧
    (storeKeys (syncStore (syncStore store shopId ds t1) shopId ds t2)).Nodup ∧
    (∀ d ∈ ds,
      (syncStore (syncStore store shopId ds t1) shopId ds t2).countP
          (keyMatches shopId (deriveDisputeId d.core.id t2)) = 1) ∧
    (∀ d ∈ ds, ∀ r ∈ syncStore (syncStore store shopId ds t1) shopId ds t2,
      keyMatches shopId (deriveDisputeId d.core.id t2) r = true → r.updatedAt = t2) := by
  have hpresent : ∀ d ∈ ds,
      (shopId, deriveDisputeId d.core.id t2) ∈ storeKeys (syncStore store shopId ds t1) := by
    intro d hd
    rw [deriveDisputeId_stable (hId d hd) t2 t1]
    exact derived_key_mem_syncStore hd
  have hkeys := storeKeys_syncStore_of_present hpresent
  have hnd1 : (storeKeys (syncStore store shopId ds t1)).Nodup :=
    nodup_storeKeys_syncStore hUC
  have hnd2 : (storeKeys (syncStore (syncStore store shopId ds t1) shopId ds t2)).Nodup :=
    nodup_storeKeys_syncStore hnd1
  refine ⟨?_, hnd2, ?_, ?_⟩
  · have := congrArg List.length hkeys
    simpa [storeKeys] using this
  · intro d hd
    rw [countP_keyMatches]
    refine countP_eq_one_of_nodup_mem hnd2 ?_
    exact derived_key_mem_syncStore hd
  · intro d hd
    exact sync_updatedAt hd

/-- A raw dispute node with no remote id at all: the upsert key falls back to
the wall-clock string. -/
def noIdDispute : RawDispute :=
  { core := ⟨none, none, none, none, none, none, none, none⟩, order := none }

/-- C2 counterexample: a snapshot containing a record without a remote id,
reconciled at clock 0 and again at clock 1, grows the table from one row to
two — the second pass does not leave the row count unchanged, because the
timestamp-fallback key differs between the passes. -/
theorem sync_twice_rowcount_cex :
    (syncStore ([] : List DisputeRow) 1 [noIdDispute] 0).length = 1 ∧
    (syncStore (syncStore ([] : List DisputeRow) 1 [noIdDispute] 0) 1 [noIdDispute] 1).length
      = 2 := by
  constructor
  · decide
  · decide

theorem sync_idempotent_witness :
    (syncStore (syncStore ([] : List DisputeRow) 1 [dW] 0) 1 [dW] 1).length
      = (syncStore ([] : List DisputeRow) 1 [dW] 0).length :=
  (sync_idempotent [] 1 [dW] 0 1 (by simp [storeKeys])
    (by
      intro d hd
      rw [List.mem_singleton] at hd
      subst hd
      exact ⟨"gid://shopify/ShopifyPaymentsDispute/123456", rfl, by decide⟩)).1

theorem mem_flattenOrders {orders : List OrderNode} {d : RawDispute} :
    d ∈ flattenOrders orders ↔
      ∃ o ∈ orders, ∃ c ∈ o.disputes.getD [],
        d = ⟨c, some ⟨o.id, o.name, o.email⟩⟩ := by
  simp only [flattenOrders, List.mem_flatMap]
  constructor
  · rintro ⟨o, ho, hd⟩
    rcases hds : o.disputes with _ | ds
    · rw [hds] at hd
      cases hd
    · rw [hds] at hd
      obtain ⟨c, hc, rfl⟩ := List.mem_map.mp hd
      exact ⟨o, ho, c, by simpa [hds] using hc, rfl⟩
  · rintro ⟨o, ho, c, hc, rfl⟩
    refine ⟨o, ho, ?_⟩
    rcases hds : o.disputes with _ | ds
    · rw [hds] at hc
      cases hc
    · rw [hds] at hc
      simp only [Option.getD_some] at hc
      exact List.mem_map.mpr ⟨c, hc, rfl⟩

/-- C1: whenever the direct disputes query throws or returns a GraphQL error
payload, `fetchDisputeEdges` runs the orders fallback; a clean fallback
payload yields exactly the flattened `order → disputes` edges, each carrying
its parent order's id/name/email, while a fallback error payload fails the
whole operation with the descriptive error carrying the upstream payload (and
a thrown fallback propagates). -/
theorem fetch_fallback (direct : QueryResult (List RawDispute))
    (fallback : QueryResult (List OrderNode))
    (hfail : (∃ msg, direct = .throws msg) ∨ ∃ e dat, direct = .result (some e) dat) :
    (∀ orders, fallback = .result none (some orders) →
      fetchDisputeEdges direct fallback = .ok (flattenOrders orders) ∧
      ∀ d : RawDispute, d ∈ flattenOrders orders ↔
        ∃ o ∈ orders, ∃ c ∈ o.disputes.getD [],
          d = ⟨c, some ⟨o.id, o.name, o.email⟩⟩) ∧
    (∀ errs dat, fallback = .result (some errs) dat →
      fetchDisputeEdges direct fallback = .error ("Failed to fetch disputes: " ++ errs)) ∧
    (∀ msg, fallback = .throws msg → fetchDisputeEdges direct fallback = .error msg) := by
  refine ⟨?_, ?_, ?_⟩
  · rintro orders rfl
    rcases hfail with ⟨msg, rfl⟩ | ⟨e, dat, rfl⟩ <;>
      exact ⟨rfl, fun d => mem_flattenOrders⟩
  · rintro errs dat rfl
    rcases hfail with ⟨msg, rfl⟩ | ⟨e, dat2, rfl⟩ <;> rfl
  · rintro msg rfl
    rcases hfail with ⟨msg2, rfl⟩ | ⟨e, dat, rfl⟩ <;> rfl

/-- A concrete fallback order node holding one nested dispute. -/
def orderW : OrderNode :=
  { id := some "gid://shopify/Order/88"
    name := some "#1002"
    email := some "w@x.y"
    disputes := some [⟨some "gid://shopify/ShopifyPaymentsDispute/314", some ⟨some "10.00", some "USD"⟩,
      none, none, some "fraudulent", some "NEEDS_RESPONSE", some "CHARGEBACK", none⟩] }

theorem fetch_fallback_witness :
    fetchDisputeEdges (.result (some "errors payload") none) (.result none (some [orderW]))
      = .ok (flattenOrders [orderW]) :=
  ((fetch_fallback (.result (some "errors payload") none) (.result none (some [orderW]))
    (Or.inr ⟨"errors payload", none, rfl⟩)).1 [orderW] rfl).1

/-- C9: `syncDisputes` returns the reconciliation result unchanged on success
and substitutes the empty list when `fetchDisputesFromShopify` fails, so the
caller can still render previously persisted rows. -/
theorem syncDisputes_degrades (direct : QueryResult (List RawDispute))
    (fallback : QueryResult (List OrderNode)) (store : List DisputeRow)
    (shopId : Nat) (now : Int) :
    (∀ e, fetchDisputesFromShopify direct fallback store shopId now = .error e →
      syncDisputes direct fallback store shopId now = ([], store)) ∧
    (∀ r, fetchDisputesFromShopify direct fallback store shopId now = .ok r →
      syncDisputes direct fallback store shopId now = r) := by
  constructor
  · intro e h
    simp [syncDisputes, h]
  · intro r h
    simp [syncDisputes, h]

/-! ## Chargeback theorems -/

theorem length_filterMap_guard {α β : Type} (p : α → Bool) (f : α → β) (l : List α) :
    (l.filterMap fun t => if p t then some (f t) else none).length = l.countP p := by
  induction l with
  | nil => rfl
  | cons a rest ih =>
    by_cases ha : p a = true
    · simp [List.filterMap_cons, List.countP_cons, ha, ih]
    · simp only [Bool.not_eq_true] at ha
      simp [List.filterMap_cons, List.countP_cons, ha, ih]

/-- The transaction of the scenario order carrying kind `CHARGEBACK`. -/
def txChargeback : Transaction :=
  { id := some "gid://shopify/OrderTransaction/4", kind := some "CHARGEBACK",
    status := some "PENDING", amount := some "49.99", currencyCode := some "USD",
    createdAt := none, gateway := none, test := false, parentTransaction := none }

/-- The transaction of the scenario order carrying kind `SALE`. -/
def txSale : Transaction :=
  { id := some "gid://shopify/OrderTransaction/3", kind := some "SALE",
    status := some "SUCCESS", amount := some "49.99", currencyCode := some "USD",
    createdAt := none, gateway := none, test := false, parentTransaction := none }

/-- The scenario order: one `CHARGEBACK` and one `SALE` transaction. -/
def orderScenario : ChargebackOrder :=
  { id := some "gid://shopify/Order/5", name := some "#1002", email := some "a@b.c",
    createdAt := some "2024-01-01T00:00:00Z", transactions := some [txChargeback, txSale] }

/-- C6 (amended): the chargeback loop produces exactly one record per
transaction whose kind is the literal string `CHARGEBACK` or `chargeback` and
none for any other kind; the scenario order with one `CHARGEBACK` and one
`SALE` transaction yields exactly one record. -/
theorem chargeback_kind_filter :
    (∀ orders : List ChargebackOrder,
      (chargebackRecords orders).length =
        (orders.map fun o => (o.transactions.getD []).countP isChargebackKind).sum) ∧
    (∀ (orders : List ChargebackOrder) (o : ChargebackOrder) (t : Transaction),
      o ∈ orders → t ∈ o.transactions.getD [] → isChargebackKind t = true →
        mkChargebackData o t ∈ chargebackRecords orders) ∧
    (∀ t : Transaction, isChargebackKind t = true ↔
      (t.kind = some "CHARGEBACK" ∨ t.kind = some "chargeback")) ∧
    (chargebackRecords [orderScenario]).length = 1 := by
  refine ⟨?_, ?_, ?_, ?_⟩
  · intro orders
    induction orders with
    | nil => rfl
    | cons o rest ih =>
      simp [chargebackRecords, length_filterMap_guard] at ih ⊢
      exact ih
  · intro orders o t ho ht hk
    refine List.mem_flatMap.mpr ⟨o, ho, ?_⟩
    exact List.mem_filterMap.mpr ⟨t, ht, by rw [hk]; simp⟩
  · intro t
    simp [isChargebackKind]
  · decide

/-- A transaction whose kind is `Chargeback` in mixed case. -/
def txMixedCase : Transaction :=
  { id := some "gid://shopify/OrderTransaction/1", kind := some "Chargeback",
    status := none, amount := none, currencyCode := none, createdAt := none,
    gateway := none, test := false, parentTransaction := none }

/-- An order whose only transaction has the mixed-case kind. -/
def orderMixedCase : ChargebackOrder :=
  { id := some "gid://shopify/Order/2", name := some "#1001", email := none,
    createdAt := none, transactions := some [txMixedCase] }

/-- C6 counterexample: a transaction whose kind equals `CHARGEBACK` under
case-insensitive comparison (`Chargeback`) produces no record — the filter
matches only the two exact literals, so it is not case-insensitive. -/
theorem chargeback_case_cex :
    chargebackRecords [orderMixedCase] = [] ∧
    jsToLower "Chargeback" = jsToLower "CHARGEBACK" := by
  constructor
  · decide
  · decide

/-- C7: a chargeback row's stored identifier is the literal `chargeback-`
prefix on the transaction id's trailing path segment, a true dispute row's
identifier is the bare trailing segment, and when the two trailing numeric
segments agree the two stored identifiers still differ. -/
theorem chargeback_id_distinct (s1 s2 : String) (now : Int) (dseg : String)
    (hne : dseg ≠ "") (_hdig : ∀ c ∈ dseg.data, c.isDigit)
    (h1 : lastSeg s1 = dseg) (h2 : lastSeg s2 = dseg) :
    chargebackDisputeId (some s1) = "chargeback-" ++ dseg ∧
    deriveDisputeId (some s2) now = dseg ∧
    chargebackDisputeId (some s1) ≠ deriveDisputeId (some s2) now := by
  have e1 : chargebackDisputeId (some s1) = "chargeback-" ++ dseg := by
    simp [chargebackDisputeId, h1, hne]
  have e2 : deriveDisputeId (some s2) now = dseg := by
    simp [deriveDisputeId, h2, hne]
  refine ⟨e1, e2, ?_⟩
  rw [e1, e2]
  intro he
  have hlen := congrArg String.length he
  rw [String.length_append] at hlen
  have hpre : ("chargeback-" : String).length = 11 := rfl
  rw [hpre] at hlen
  omega

theorem chargeback_id_distinct_witness :
    chargebackDisputeId (some "gid://shopify/OrderTransaction/123456")
      ≠ deriveDisputeId (some "gid://shopify/ShopifyPaymentsDispute/123456") 0 :=
  (chargeback_id_distinct "gid://shopify/OrderTransaction/123456"
    "gid://shopify/ShopifyPaymentsDispute/123456" 0 "123456"
    (by decide) (by decide) (by decide) (by decide)).2.2

/-! ## Amount normalization theorems -/

/-- C8 (amended): a null amount object, a null amount string, or an empty
amount string is stored as null; every other amount string is stored as the
standard parser's result — NaN, not null, when nothing parses — and the
string `49.99` is stored as the number 49.99. -/
theorem normalizeAmount_parse :
    (normalizeAmount none = none) ∧
    (∀ c, normalizeAmount (some ⟨none, c⟩) = none) ∧
    (∀ c, normalizeAmount (some ⟨some "", c⟩) = none) ∧
    (∀ s c, s ≠ "" → normalizeAmount (some ⟨some s, c⟩) = some (jsParseFloat s)) ∧
    jsParseFloat "49.99" = .val ((4999 : Rat) / 100) ∧
    jsParseFloat "abc" = .nan := by
  refine ⟨rfl, fun c => rfl, fun c => rfl, ?_, ?_, by decide⟩
  · intro s c hs
    simp [normalizeAmount, hs]
  · have h : jsParseFloatRepr "49.99" = some (4999, -2) := by decide
    rw [jsParseFloat, h]
    norm_num
    rfl

/-- C8 counterexample: the non-empty, unparseable amount string `abc` is
stored as NaN — the `parseFloat` result — and not as null as the claim
states. -/
theorem normalizeAmount_nan_cex :
    normalizeAmount (some ⟨some "abc", some "USD"⟩) = some JsNumber.nan ∧
    normalizeAmount (some ⟨some "abc", some "USD"⟩) ≠ none := by
  constructor
  · decide
  · decide

/-! ## Compliance webhook theorems -/

/-- A thrown value the catch clauses do not convert to 401: not an `Error`,
or an `Error` whose message contains neither `HMAC` nor `Unauthorized`. -/
def benignThrow (t : Thrown) : Prop :=
  ∀ m, t = .err m →
    containsSubstr m "HMAC" = false ∧ containsSubstr m "Unauthorized" = false

theorem complianceCatch_eq_401 {t : Thrown} (h : complianceCatch t = 401) :
    ∃ m, t = .err m ∧
      (containsSubstr m "HMAC" = true ∨ containsSubstr m "Unauthorized" = true) := by
  rcases t with m | _
  · by_cases hc : (containsSubstr m "HMAC" || containsSubstr m "Unauthorized") = true
    · exact ⟨m, rfl, (Bool.or_eq_true _ _).mp hc⟩
    · simp only [complianceCatch, if_neg hc] at h
      cases h
  · simp [complianceCatch] at h

theorem shopRedactCatch_eq_401 {t : Thrown} (h : shopRedactCatch t = 401) :
    ∃ m, t = .err m ∧
      (containsSubstr m "HMAC" = true ∨ containsSubstr m "Unauthorized" = true) := by
  rcases t with m | _
  · by_cases hc : containsSubstr m "HMAC" = true
    · exact ⟨m, rfl, Or.inl hc⟩
    · simp only [shopRedactCatch, if_neg hc] at h
      cases h
  · simp [shopRedactCatch] at h

theorem complianceCatch_benign {t : Thrown} (h : benignThrow t) : complianceCatch t = 200 := by
  rcases t with m | _
  · obtain ⟨h1, h2⟩ := h m rfl
    simp [complianceCatch, h1, h2]
  · rfl

theorem shopRedactCatch_benign {t : Thrown} (h : benignThrow t) : shopRedactCatch t = 200 := by
  rcases t with m | _
  · obtain ⟨h1, _⟩ := h m rfl
    simp [shopRedactCatch, h1]
  · rfl

/-- C10: whenever webhook authentication succeeds, both compliance actions
acknowledge with 200 — for any topic (recognized or not), whether or not the
shop is found, and when a storage operation throws a value the catch clauses
treat as benign; each action answers 401 only when some thrown `Error`'s
message contains `HMAC` or `Unauthorized`. -/
theorem compliance_webhook_status :
    (∀ (topic : String) (shopFound : Bool),
      complianceAction (.ok topic) shopFound none = 200) ∧
    (∀ (topic : String) (shopFound : Bool) (t : Thrown), benignThrow t →
      complianceAction (.ok topic) shopFound (some t) = 200) ∧
    (∀ (auth : Except Thrown String) (shopFound : Bool) (dbF : Option Thrown),
      complianceAction auth shopFound dbF = 401 →
        ∃ m, (auth = .error (.err m) ∨ dbF = some (.err m)) ∧
          (containsSubstr m "HMAC" = true ∨ containsSubstr m "Unauthorized" = true)) ∧
    (∀ (topic : String) (shopFound : Bool),
      shopRedactAction (.ok topic) shopFound none = 200) ∧
    (∀ (topic : String) (shopFound : Bool) (t : Thrown), benignThrow t →
      shopRedactAction (.ok topic) shopFound (some t) = 200) ∧
    (∀ (auth : Except Thrown String) (shopFound : Bool) (dbF : Option Thrown),
      shopRedactAction auth shopFound dbF = 401 →
        ∃ m, (auth = .error (.err m) ∨ dbF = some (.err m)) ∧
          (containsSubstr m "HMAC" = true ∨ containsSubstr m "Unauthorized" = true)) := by
  refine ⟨?_, ?_, ?_, ?_, ?_, ?_⟩
  · intro topic shopFound
    simp only [complianceAction]
    split
    · cases shopFound <;> rfl
    · rfl
  · intro topic shopFound t ht
    simp only [complianceAction]
    split
    · exact complianceCatch_benign ht
    · rfl
  · intro auth shopFound dbF h
    rcases auth with t | topic
    · obtain ⟨m, rfl, hm⟩ := complianceCatch_eq_401 h
      exact ⟨m, Or.inl rfl, hm⟩
    · simp only [complianceAction] at h
      split at h
      · rcases dbF with _ | t
        · cases shopFound <;> cases h
        · obtain ⟨m, rfl, hm⟩ := complianceCatch_eq_401 h
          exact ⟨m, Or.inr rfl, hm⟩
      · cases h
  · intro topic shopFound
    simp only [shopRedactAction]
    split
    · cases shopFound <;> rfl
    · rfl
  · intro topic shopFound t ht
    simp only [shopRedactAction]
    split
    · exact shopRedactCatch_benign ht
    · rfl
  · intro auth shopFound dbF h
    rcases auth with t | topic
    · obtain ⟨m, rfl, hm⟩ := shopRedactCatch_eq_401 h
      exact ⟨m, Or.inl rfl, hm⟩
    · simp only [shopRedactAction] at h
      split at h
      · rcases dbF with _ | t
        · cases shopFound <;> cases h
        · obtain ⟨m, rfl, hm⟩ := shopRedactCatch_eq_401 h
          exact ⟨m, Or.inr rfl, hm⟩
      · cases h
